import Mathlib

/-!
Verification of the `cl-array-ext` crate: the fixed-array reshaper
(`array_split_at`, `append` in src/lib.rs) and the bounded-slice view
`SliceN` (src/slice.rs).

Modelling conventions.

A fixed array `[T; N]` is modelled as a function `Fin N → α`: the value at
index `i` is the element stored at offset `i` of the contiguous allocation.
`array_split_at` performs two raw reads, at offsets `0` and `M`, of the
source allocation; `append` copies the first array into offsets `[0, N)` of
the destination and the second into offsets `[N, N + M)`.

A `SliceN<T, N>` value in the source is a fat reference `(p, meta)` where
`meta` is the length of the `tail` field; because the struct is `repr(C)`
with `head: [T; N]` followed by `tail: [T]`, the memory it governs is the
contiguous region of `N + meta` elements starting at `p`, with `head`
occupying offsets `[0, N)` and `tail` offsets `[N, N + meta)`.  We model a
view by the region it governs (a `List α`) together with the invariant
`N ≤ region.length` (equivalently, `meta = region.length - N ≥ 0`).  Every
operation of the source keeps the base address `p` and only rewrites `meta`,
which in the model means: the `region` is kept and only the type-level
boundary `N` changes.
-/

/-- The consuming split of `[T; N]` into `([T; M], [T; N - M])`
(`array_split_at` in src/lib.rs): two raw reads of the source allocation,
one of `M` elements at offset `0` and one of `N - M` elements at offset `M`.
Rust enforces `M ≤ N` at compile time through the `[T; N - M]: Sized` bound,
which is the hypothesis `hMN` here. -/
def array_split_at {α : Type} {N : Nat} (M : Nat) (hMN : M ≤ N) (a : Fin N → α) :
    (Fin M → α) × (Fin (N - M) → α) :=
  (fun i => a ⟨i.val, Nat.lt_of_lt_of_le i.isLt hMN⟩,
   fun j => a ⟨M + j.val, by have := j.isLt; omega⟩)

/-- The consuming join of `[T; N]` and `[T; M]` into `[T; N + M]`
(`append` in src/lib.rs): the destination holds the first array at offsets
`[0, N)` (the first bulk copy) and the second at offsets `[N, N + M)` (the
second bulk copy), so reading offset `i` hits `a` when `i < N` and `b` at
offset `i - N` otherwise. -/
def append {α : Type} {N M : Nat} (a : Fin N → α) (b : Fin M → α) : Fin (N + M) → α :=
  fun i =>
    if h : i.val < N then a ⟨i.val, h⟩
    else b ⟨i.val - N, by have := i.isLt; omega⟩

/-- C1: for every array `A` of length `N` and every `M ≤ N` (the compile-time
bound), `array_split_at::<M>(A)` returns the pair `(A[0..M], A[M..N])`: the
first output is the first `M` elements of `A` in order and the second output
is the remaining `N - M` elements in order. -/
theorem array_split_at_spec {α : Type} {N : Nat} (M : Nat) (hMN : M ≤ N) (a : Fin N → α) :
    List.ofFn (array_split_at M hMN a).1 = (List.ofFn a).take M ∧
    List.ofFn (array_split_at M hMN a).2 = (List.ofFn a).drop M := by
  constructor
  · apply List.ext_getElem
    · simp [Nat.min_eq_left hMN]
    · intro i h1 h2
      simp [array_split_at]
  · apply List.ext_getElem
    · simp
    · intro i h1 h2
      simp [array_split_at]

/-- Witness for C1 at `A = [1, 2, 3, 4, 5]`, `M = 3`. -/
theorem array_split_at_spec_witness :
    3 ≤ 5 ∧
    (List.ofFn (array_split_at 3 (by decide) (fun i : Fin 5 => i.val + 1)).1 =
        (List.ofFn (fun i : Fin 5 => i.val + 1)).take 3 ∧
      List.ofFn (array_split_at 3 (by decide) (fun i : Fin 5 => i.val + 1)).2 =
        (List.ofFn (fun i : Fin 5 => i.val + 1)).drop 3) :=
  ⟨by decide, array_split_at_spec 3 (by decide) (fun i : Fin 5 => i.val + 1)⟩

/-- C2: appending the two outputs of `array_split_at::<M>(A)` reconstructs
`A` exactly (round trip). -/
theorem split_append_roundtrip {α : Type} {N : Nat} (M : Nat) (hMN : M ≤ N) (a : Fin N → α) :
    List.ofFn (append (array_split_at M hMN a).1 (array_split_at M hMN a).2) =
      List.ofFn a := by
  apply List.ext_getElem
  · simp; omega
  · intro i h1 h2
    simp only [List.getElem_ofFn, append, array_split_at]
    split
    · rfl
    · congr 1
      apply Fin.ext
      simp only []
      omega

/-- Witness for C2 at `A = [1, 2, 3, 4, 5]`, `M = 3`. -/
theorem split_append_roundtrip_witness :
    3 ≤ 5 ∧
    List.ofFn
        (append (array_split_at 3 (by decide) (fun i : Fin 5 => i.val + 1)).1
          (array_split_at 3 (by decide) (fun i : Fin 5 => i.val + 1)).2) =
      List.ofFn (fun i : Fin 5 => i.val + 1) :=
  ⟨by decide, split_append_roundtrip 3 (by decide) (fun i : Fin 5 => i.val + 1)⟩

/-- C3: `append(A, B)` has length `N + M` and is exactly `A` concatenated
with `B`, element for element: positions `[0, N)` hold `A`'s elements in
order and positions `[N, N + M)` hold `B`'s elements in order. -/
theorem append_spec {α : Type} {N M : Nat} (a : Fin N → α) (b : Fin M → α) :
    (List.ofFn (append a b)).length = N + M ∧
    List.ofFn (append a b) = List.ofFn a ++ List.ofFn b := by
  refine ⟨by simp, ?_⟩
  apply List.ext_getElem
  · simp
  · intro i h1 h2
    simp only [List.getElem_ofFn, append]
    by_cases h : i < N
    · rw [List.getElem_append_left (by simpa using h)]
      simp [h]
    · rw [List.getElem_append_right (by simpa using h)]
      simp [h]

/-- The error marker returned by every fallible `SliceN` entry point
(`NotEnoughEntries` in src/slice.rs). Carries no payload. -/
inductive NotEnoughEntries : Type where
  | notEnoughEntries
  deriving DecidableEq

/-- The bounded-slice view `SliceN<T, N>` of src/slice.rs: a fat reference
`(p, meta)` to a `repr(C)` struct `{ head: [T; N], tail: [T] }`, i.e. a view
of the contiguous region of `N + meta` elements starting at `p`.  `region`
is that full region; the well-formedness field records that the region holds
at least the `N` elements the `head` field occupies. -/
structure SliceN (α : Type) (N : Nat) : Type where
  region : List α
  h_min_len : N ≤ region.length

/-- The `head: [T; N]` field of a `SliceN`: offsets `[0, N)` of the region. -/
def SliceN.head {α : Type} {N : Nat} (s : SliceN α N) : List α :=
  s.region.take N

/-- The `tail: [T]` field of a `SliceN`: offsets `[N, N + meta)` of the
region, where `meta` is the fat-pointer metadata. -/
def SliceN.tail {α : Type} {N : Nat} (s : SliceN α N) : List α :=
  s.region.drop N

/-- `SliceN::from_unchecked` (src/slice.rs): reuses the slice's base pointer
and sets the metadata to `slice.len() - N`, so the resulting view governs
exactly the input region.  The precondition `N ≤ slice.length` is the
safety contract stated in its doc comment. -/
def SliceN.from_unchecked {α : Type} (N : Nat) (slice : List α)
    (h : N ≤ slice.length) : SliceN α N :=
  ⟨slice, h⟩

/-- The `TryFrom<&[T]>` / `TryFrom<&mut [T]>` impls for `SliceN` (both have
the same value-level behaviour): fail with `NotEnoughEntries` when
`value.len() < N`, otherwise defer to `from_unchecked`. -/
def tryFromSlice {α : Type} (N : Nat) (value : List α) :
    Except NotEnoughEntries (SliceN α N) :=
  if h : value.length < N then .error .notEnoughEntries
  else .ok (SliceN.from_unchecked N value (Nat.le_of_not_lt h))

/-- The `Deref`/`DerefMut` impls for `SliceN`: same base pointer, metadata
`meta + N`, i.e. the full region currently governed by the view. -/
def SliceN.derefSlice {α : Type} {N : Nat} (s : SliceN α N) : List α :=
  s.region

/-- `SliceN::increase_unchecked` (and its `_mut` variant): same base
pointer, metadata `meta - M`, so the same region reinterpreted with the
head/tail boundary at `N + M`.  The precondition `M ≤ tail.length` is the
safety contract stated in its doc comment. -/
def SliceN.increase_unchecked {α : Type} {N : Nat} (M : Nat) (s : SliceN α N)
    (h : M ≤ s.tail.length) : SliceN α (N + M) :=
  ⟨s.region, by have := s.h_min_len; simp [SliceN.tail] at h; omega⟩

/-- `SliceN::increase` (and `increase_mut`): fail with `NotEnoughEntries`
when `tail.len() < M`, otherwise defer to `increase_unchecked`. -/
def SliceN.increase {α : Type} {N : Nat} (M : Nat) (s : SliceN α N) :
    Except NotEnoughEntries (SliceN α (N + M)) :=
  if h : s.tail.length < M then .error .notEnoughEntries
  else .ok (s.increase_unchecked M (Nat.le_of_not_lt h))

/-- `SliceN::downsize` (and `downsize_mut`): `SliceN::<T, M>::from_unchecked`
applied to the deref of `self`, i.e. the same region reinterpreted with the
head/tail boundary at `M`.  Rust enforces `M ≤ N` at compile time through
the `[T; N - M]: Sized` bound, which is the hypothesis `hMN` here. -/
def SliceN.downsize {α : Type} {N : Nat} (M : Nat) (hMN : M ≤ N) (s : SliceN α N) :
    SliceN α M :=
  SliceN.from_unchecked M s.derefSlice (Nat.le_trans hMN s.h_min_len)

/-- The output of `Formatter::debug_list().entries(it).finish()` for an
iterator yielding `entries`: the rendered elements, comma-separated, in
square brackets. -/
def debugList {α : Type} (render : α → String) (entries : List α) : String :=
  "[" ++ String.intercalate ", " (entries.map render) ++ "]"

/-- The `fmt::Debug` impl for `SliceN`: a debug list over `self.iter()`,
which iterates the deref view (the full region). -/
def SliceN.debugFmt {α : Type} {N : Nat} (render : α → String) (s : SliceN α N) :
    String :=
  debugList render s.derefSlice

/-- Writing `x` through `head[i]` of a `SliceN` view: `head` occupies
offsets `[0, N)` of the region (`repr(C)` layout), so this is a store at
offset `i` of the shared backing region. -/
def SliceN.setHead {α : Type} {N : Nat} (s : SliceN α N) (i : Nat) (x : α) :
    SliceN α N :=
  ⟨s.region.set i x, by rw [List.length_set]; exact s.h_min_len⟩

/-- Writing `y` through `tail[j]` of a `SliceN` view: `tail` starts at
offset `N` of the region (`repr(C)` layout), so this is a store at offset
`N + j` of the shared backing region. -/
def SliceN.setTail {α : Type} {N : Nat} (s : SliceN α N) (j : Nat) (y : α) :
    SliceN α N :=
  ⟨s.region.set (N + j) y, by rw [List.length_set]; exact s.h_min_len⟩

/-- C4: checked construction of a `SliceN<T, N>` from a region of length `L`
succeeds iff `L ≥ N`; on success the view governs the input region itself
(no copy), its `head` is the first `N` elements and its `tail` the remaining
`L - N` elements; on failure (`L < N`) it returns `NotEnoughEntries`. -/
theorem tryFromSlice_spec {α : Type} (N : Nat) (value : List α) :
    (value.length < N → tryFromSlice N value = .error .notEnoughEntries) ∧
    (N ≤ value.length →
      ∃ s : SliceN α N, tryFromSlice N value = .ok s ∧
        s.region = value ∧ s.head = value.take N ∧ s.tail = value.drop N) := by
  constructor
  · intro h
    simp [tryFromSlice, h]
  · intro h
    refine ⟨SliceN.from_unchecked N value h, ?_, rfl, rfl, rfl⟩
    simp [tryFromSlice, Nat.not_lt.mpr h]

/-- Witness for C4: instantiated at the region `[1, 2, 3, 4, 5]` with
`N = 3` (success side exercised) and at `[1, 2]` with `N = 3` (failure
side exercised). -/
theorem tryFromSlice_spec_witness :
    (([1, 2] : List Nat).length < 3 →
      tryFromSlice 3 ([1, 2] : List Nat) = .error .notEnoughEntries) ∧
    (3 ≤ ([1, 2, 3, 4, 5] : List Nat).length →
      ∃ s : SliceN Nat 3, tryFromSlice 3 [1, 2, 3, 4, 5] = .ok s ∧
        s.region = [1, 2, 3, 4, 5] ∧ s.head = ([1, 2, 3, 4, 5] : List Nat).take 3 ∧
        s.tail = ([1, 2, 3, 4, 5] : List Nat).drop 3) :=
  ⟨(tryFromSlice_spec 3 ([1, 2] : List Nat)).1,
   (tryFromSlice_spec 3 ([1, 2, 3, 4, 5] : List Nat)).2⟩

/-- C5: checked widen `increase::<M>` on a view whose tail has length `T`
succeeds iff `T ≥ M`; on success it yields a view over the identical region
whose `head` is the old `head ++ tail[0..M]` and whose `tail` is the old
`tail[M..T]`; when `T < M` it fails with `NotEnoughEntries`. -/
theorem increase_spec {α : Type} {N : Nat} (M : Nat) (s : SliceN α N) :
    (s.tail.length < M → s.increase M = .error .notEnoughEntries) ∧
    (M ≤ s.tail.length →
      ∃ t : SliceN α (N + M), s.increase M = .ok t ∧
        t.region = s.region ∧
        t.head = s.head ++ s.tail.take M ∧
        t.tail = s.tail.drop M) := by
  constructor
  · intro h
    simp [SliceN.increase, h]
  · intro h
    refine ⟨s.increase_unchecked M h, ?_, rfl, ?_, ?_⟩
    · simp [SliceN.increase, Nat.not_lt.mpr h]
    · show s.region.take (N + M) = s.region.take N ++ (s.region.drop N).take M
      exact List.take_add s.region N M
    · show s.region.drop (N + M) = (s.region.drop N).drop M
      rw [List.drop_drop]

/-- Witness for C5 at the view over `[1, 2, 3, 4, 5]` with `N = 3`
(tail `[4, 5]`), widening by `M = 2` (success side) and by `M = 3`
(failure side). -/
theorem increase_spec_witness :
    ((SliceN.mk ([1, 2, 3, 4, 5] : List Nat) (by decide) : SliceN Nat 3).tail.length < 3 →
      (SliceN.mk ([1, 2, 3, 4, 5] : List Nat) (by decide) : SliceN Nat 3).increase 3 =
        .error .notEnoughEntries) ∧
    (2 ≤ (SliceN.mk ([1, 2, 3, 4, 5] : List Nat) (by decide) : SliceN Nat 3).tail.length →
      ∃ t : SliceN Nat (3 + 2),
        (SliceN.mk ([1, 2, 3, 4, 5] : List Nat) (by decide) : SliceN Nat 3).increase 2 =
          .ok t ∧
        t.region = (SliceN.mk ([1, 2, 3, 4, 5] : List Nat) (by decide) : SliceN Nat 3).region ∧
        t.head = (SliceN.mk ([1, 2, 3, 4, 5] : List Nat) (by decide) : SliceN Nat 3).head ++
          (SliceN.mk ([1, 2, 3, 4, 5] : List Nat) (by decide) : SliceN Nat 3).tail.take 2 ∧
        t.tail = (SliceN.mk ([1, 2, 3, 4, 5] : List Nat) (by decide) : SliceN Nat 3).tail.drop 2) :=
  ⟨(increase_spec 3 (SliceN.mk ([1, 2, 3, 4, 5] : List Nat) (by decide))).1,
   (increase_spec 2 (SliceN.mk ([1, 2, 3, 4, 5] : List Nat) (by decide))).2⟩

/-- C6: narrow `downsize::<M>` (with the compile-time bound `M ≤ N`) always
succeeds and yields a view over the identical region whose `head` is the old
`head[0..M]` and whose `tail` is the old `head[M..N] ++ tail`, without
changing any underlying element. -/
theorem downsize_spec {α : Type} {N : Nat} (M : Nat) (hMN : M ≤ N) (s : SliceN α N) :
    (s.downsize M hMN).region = s.region ∧
    (s.downsize M hMN).head = s.head.take M ∧
    (s.downsize M hMN).tail = s.head.drop M ++ s.tail := by
  refine ⟨rfl, ?_, ?_⟩
  · show s.region.take M = (s.region.take N).take M
    rw [List.take_take, Nat.min_eq_left hMN]
  · show s.region.drop M = (s.region.take N).drop M ++ s.region.drop N
    nth_rewrite 1 [← List.take_append_drop N s.region]
    rw [List.drop_append_of_le_length
      (by rw [List.length_take_of_le s.h_min_len]; exact hMN)]

/-- Witness for C6 at the view over `[1, 2, 3, 4, 5]` with `N = 3`,
narrowed to `M = 2`. -/
theorem downsize_spec_witness :
    2 ≤ 3 ∧
    (((SliceN.mk ([1, 2, 3, 4, 5] : List Nat) (by decide) : SliceN Nat 3).downsize 2
        (by decide)).region =
      (SliceN.mk ([1, 2, 3, 4, 5] : List Nat) (by decide) : SliceN Nat 3).region ∧
    ((SliceN.mk ([1, 2, 3, 4, 5] : List Nat) (by decide) : SliceN Nat 3).downsize 2
        (by decide)).head =
      (SliceN.mk ([1, 2, 3, 4, 5] : List Nat) (by decide) : SliceN Nat 3).head.take 2 ∧
    ((SliceN.mk ([1, 2, 3, 4, 5] : List Nat) (by decide) : SliceN Nat 3).downsize 2
        (by decide)).tail =
      (SliceN.mk ([1, 2, 3, 4, 5] : List Nat) (by decide) : SliceN Nat 3).head.drop 2 ++
        (SliceN.mk ([1, 2, 3, 4, 5] : List Nat) (by decide) : SliceN Nat 3).tail) :=
  ⟨by decide, downsize_spec 2 (by decide) (SliceN.mk ([1, 2, 3, 4, 5] : List Nat) (by decide))⟩

/-- C7: the deref (full-region) view of a `SliceN` is exactly `head ++ tail`
at the current boundary and has length `N + tail.length`; both widen
(`increase_unchecked`, hence also checked `increase`) and narrow
(`downsize`) keep that full-region view — and so its length — unchanged:
only the split point moves. -/
theorem deref_invariant {α : Type} {N : Nat} (s : SliceN α N) (M K : Nat)
    (hM : M ≤ s.tail.length) (hK : K ≤ N) :
    s.derefSlice = s.head ++ s.tail ∧
    s.derefSlice.length = N + s.tail.length ∧
    (s.increase_unchecked M hM).derefSlice = s.derefSlice ∧
    (s.downsize K hK).derefSlice = s.derefSlice := by
  refine ⟨(List.take_append_drop N s.region).symm, ?_, rfl, rfl⟩
  show s.region.length = N + (s.region.drop N).length
  rw [List.length_drop]
  have := s.h_min_len
  omega

/-- Witness for C7 at the view over `[1, 2, 3, 4, 5]` with `N = 3`,
widening by `M = 2` and narrowing to `K = 1`. -/
theorem deref_invariant_witness :
    (SliceN.mk ([1, 2, 3, 4, 5] : List Nat) (by decide) : SliceN Nat 3).derefSlice =
      (SliceN.mk ([1, 2, 3, 4, 5] : List Nat) (by decide) : SliceN Nat 3).head ++
        (SliceN.mk ([1, 2, 3, 4, 5] : List Nat) (by decide) : SliceN Nat 3).tail ∧
    (SliceN.mk ([1, 2, 3, 4, 5] : List Nat) (by decide) : SliceN Nat 3).derefSlice.length =
      3 + (SliceN.mk ([1, 2, 3, 4, 5] : List Nat) (by decide) : SliceN Nat 3).tail.length ∧
    ((SliceN.mk ([1, 2, 3, 4, 5] : List Nat) (by decide) : SliceN Nat 3).increase_unchecked 2
        (by decide)).derefSlice =
      (SliceN.mk ([1, 2, 3, 4, 5] : List Nat) (by decide) : SliceN Nat 3).derefSlice ∧
    ((SliceN.mk ([1, 2, 3, 4, 5] : List Nat) (by decide) : SliceN Nat 3).downsize 1
        (by decide)).derefSlice =
      (SliceN.mk ([1, 2, 3, 4, 5] : List Nat) (by decide) : SliceN Nat 3).derefSlice :=
  deref_invariant (SliceN.mk ([1, 2, 3, 4, 5] : List Nat) (by decide)) 2 1
    (by decide) (by decide)

/-- C8: the `Debug` representation of a `SliceN` renders exactly the
concatenation of `head` then `tail`, in order — the same element sequence
as the full-region (deref) view. -/
theorem debugFmt_spec {α : Type} {N : Nat} (render : α → String) (s : SliceN α N) :
    s.debugFmt render = debugList render (s.head ++ s.tail) ∧
    s.debugFmt render = debugList render s.derefSlice := by
  refine ⟨?_, rfl⟩
  show debugList render s.region = debugList render (s.region.take N ++ s.region.drop N)
  rw [List.take_append_drop]

/-- C9: writing through `head` at index `i < N` stores to position `i` of
the shared backing region and writing through `tail` at index `j` stores to
position `N + j`; every other position of the region — which is the original
source region the view was constructed over — is unchanged, as is the
region's length.  At the view level, the write through `head` updates only
`head` (at `i`) and the write through `tail` updates only `tail` (at `j`). -/
theorem mutation_spec {α : Type} {N : Nat} (s : SliceN α N) (i j k : Nat) (x y : α)
    (hi : i < N) (hj : j < s.tail.length) :
    (s.setHead i x).region.length = s.region.length ∧
    (s.setTail j y).region.length = s.region.length ∧
    ((s.setHead i x).region[k]? = if k = i then some x else s.region[k]?) ∧
    ((s.setTail j y).region[k]? = if k = N + j then some y else s.region[k]?) ∧
    (s.setHead i x).head = s.head.set i x ∧
    (s.setHead i x).tail = s.tail ∧
    (s.setTail j y).head = s.head ∧
    (s.setTail j y).tail = s.tail.set j y := by
  have hi' : i < s.region.length := Nat.lt_of_lt_of_le hi s.h_min_len
  have hj' : N + j < s.region.length := by
    rw [SliceN.tail, List.length_drop] at hj
    omega
  refine ⟨List.length_set .., List.length_set .., ?_, ?_, ?_, ?_, ?_, ?_⟩
  · show (s.region.set i x)[k]? = _
    rw [List.getElem?_set]
    by_cases hk : k = i
    · simp [hk, hi']
    · rw [if_neg (fun h => hk h.symm), if_neg hk]
  · show (s.region.set (N + j) y)[k]? = _
    rw [List.getElem?_set]
    by_cases hk : k = N + j
    · simp [hk, hj']
    · rw [if_neg (fun h => hk h.symm), if_neg hk]
  · show (s.region.set i x).take N = (s.region.take N).set i x
    exact List.set_take
  · show (s.region.set i x).drop N = s.region.drop N
    rw [List.drop_set, if_pos hi]
  · show (s.region.set (N + j) y).take N = s.region.take N
    rw [List.set_take]
    exact List.set_eq_of_length_le (by
      rw [List.length_take_of_le s.h_min_len]; exact Nat.le_add_right N j)
  · show (s.region.set (N + j) y).drop N = (s.region.drop N).set j y
    rw [List.drop_set, if_neg (by omega), Nat.add_sub_cancel_left]

/-- Witness for C9 at the view over `[1, 2, 3, 4, 5]` with `N = 3`,
writing `9` through `head[1]` and `7` through `tail[1]`, observed at
region position `k = 4`. -/
theorem mutation_spec_witness :
    ((SliceN.mk ([1, 2, 3, 4, 5] : List Nat) (by decide) : SliceN Nat 3).setHead 1
        9).region.length =
      (SliceN.mk ([1, 2, 3, 4, 5] : List Nat) (by decide) : SliceN Nat 3).region.length ∧
    ((SliceN.mk ([1, 2, 3, 4, 5] : List Nat) (by decide) : SliceN Nat 3).setTail 1
        7).region.length =
      (SliceN.mk ([1, 2, 3, 4, 5] : List Nat) (by decide) : SliceN Nat 3).region.length ∧
    (((SliceN.mk ([1, 2, 3, 4, 5] : List Nat) (by decide) : SliceN Nat 3).setHead 1
        9).region[4]? =
      if 4 = 1 then some 9
      else (SliceN.mk ([1, 2, 3, 4, 5] : List Nat) (by decide) : SliceN Nat 3).region[4]?) ∧
    (((SliceN.mk ([1, 2, 3, 4, 5] : List Nat) (by decide) : SliceN Nat 3).setTail 1
        7).region[4]? =
      if 4 = 3 + 1 then some 7
      else (SliceN.mk ([1, 2, 3, 4, 5] : List Nat) (by decide) : SliceN Nat 3).region[4]?) ∧
    ((SliceN.mk ([1, 2, 3, 4, 5] : List Nat) (by decide) : SliceN Nat 3).setHead 1 9).head =
      (SliceN.mk ([1, 2, 3, 4, 5] : List Nat) (by decide) : SliceN Nat 3).head.set 1 9 ∧
    ((SliceN.mk ([1, 2, 3, 4, 5] : List Nat) (by decide) : SliceN Nat 3).setHead 1 9).tail =
      (SliceN.mk ([1, 2, 3, 4, 5] : List Nat) (by decide) : SliceN Nat 3).tail ∧
    ((SliceN.mk ([1, 2, 3, 4, 5] : List Nat) (by decide) : SliceN Nat 3).setTail 1 7).head =
      (SliceN.mk ([1, 2, 3, 4, 5] : List Nat) (by decide) : SliceN Nat 3).head ∧
    ((SliceN.mk ([1, 2, 3, 4, 5] : List Nat) (by decide) : SliceN Nat 3).setTail 1 7).tail =
      (SliceN.mk ([1, 2, 3, 4, 5] : List Nat) (by decide) : SliceN Nat 3).tail.set 1 7 :=
  mutation_spec (SliceN.mk ([1, 2, 3, 4, 5] : List Nat) (by decide)) 1 1 4 9 7
    (by decide) (by decide)

/-- C10: narrowing a view to `M ≤ N` and then widening back by `N - M`
always succeeds (the narrowed tail has at least `N - M` elements) and
returns a view with the same region, the same `head` and the same `tail`
as the original. -/
theorem downsize_increase_roundtrip {α : Type} {N : Nat} (M : Nat) (hMN : M ≤ N)
    (s : SliceN α N) :
    ∃ t : SliceN α (M + (N - M)), (s.downsize M hMN).increase (N - M) = .ok t ∧
      M + (N - M) = N ∧
      t.region = s.region ∧ t.head = s.head ∧ t.tail = s.tail := by
  have hlen : N - M ≤ (s.downsize M hMN).tail.length := by
    show N - M ≤ (s.region.drop M).length
    rw [List.length_drop]
    have := s.h_min_len
    omega
  refine ⟨(s.downsize M hMN).increase_unchecked (N - M) hlen, ?_, by omega, rfl, ?_, ?_⟩
  · simp [SliceN.increase, Nat.not_lt.mpr hlen]
  · show s.region.take (M + (N - M)) = s.region.take N
    rw [Nat.add_sub_cancel' hMN]
  · show s.region.drop (M + (N - M)) = s.region.drop N
    rw [Nat.add_sub_cancel' hMN]

/-- Witness for C10 at the view over `[1, 2, 3, 4, 5]` with `N = 3`,
narrowed to `M = 1` and widened back by `2`. -/
theorem downsize_increase_roundtrip_witness :
    1 ≤ 3 ∧
    ∃ t : SliceN Nat (1 + (3 - 1)),
      ((SliceN.mk ([1, 2, 3, 4, 5] : List Nat) (by decide) : SliceN Nat 3).downsize 1
          (by decide)).increase (3 - 1) = .ok t ∧
      1 + (3 - 1) = 3 ∧
      t.region = (SliceN.mk ([1, 2, 3, 4, 5] : List Nat) (by decide) : SliceN Nat 3).region ∧
      t.head = (SliceN.mk ([1, 2, 3, 4, 5] : List Nat) (by decide) : SliceN Nat 3).head ∧
      t.tail = (SliceN.mk ([1, 2, 3, 4, 5] : List Nat) (by decide) : SliceN Nat 3).tail :=
  ⟨by decide,
   downsize_increase_roundtrip 1 (by decide)
     (SliceN.mk ([1, 2, 3, 4, 5] : List Nat) (by decide))⟩
